import Mathlib

/-!
Shallow embedding of the task-lifecycle profiler in `tracked_objects.h`
(namespace `tracked_objects` of the repository).  Pure data is modelled by
Lean structures; the per-thread mutable tables become explicit state
passing on a `ThreadData` value; C++ `std::map` fields become association
lists keyed by decidable-equality keys.  `DurationInt` (a signed 32-bit
integer in the source) is modelled as `Int`: the source never relies on
wrap-around, and signed overflow is undefined behaviour in C++.

Method bodies that appear inline in the header (`Births::RecordBirth`,
`Births::ForgetBirth`, `Births::Clear`, the `DeathData` constructors and
accessors, the `Snapshot` accessors and its by-value `death_data_`
member, the `Status` enum) are translated directly from the source.
Bodies that the header only declares (they live in the `.cc` file that is
not part of the corpus) are modelled from the specification and marked
`Modelled from the spec:` in their doc comments.
-/

set_option autoImplicit false

namespace tracked_objects

/-- A source location atom: (file pointer, function pointer, line).
Equality is pointer identity on the strings, so pointers are modelled as
naturals. -/
structure Location where
  file : Nat
  func : Nat
  line : Int
deriving DecidableEq

/-- Thread tables are identified by a thread id (the identity of the
`ThreadData` instance). -/
abbrev ThreadId := Nat

/-- The identity of a `Births` record.  There is at most one `Births`
instance per (thread, location) pair and records are never deleted, so a
`Births*` pointer is faithfully modelled by the owning thread id together
with the location. -/
structure BirthRef where
  tid : ThreadId
  loc : Location
deriving DecidableEq

/-- The `Births` record: immutable identity (location and birth thread)
plus the mutable signed `birth_count_`. -/
structure Births where
  location : Location
  birth_thread : ThreadId
  birth_count : Int
deriving DecidableEq

/-- Source: `void RecordBirth() { ++birth_count_; }` -/
def Births.RecordBirth (b : Births) : Births :=
  { b with birth_count := b.birth_count + 1 }

/-- Source: `void ForgetBirth() { --birth_count_; }` -/
def Births.ForgetBirth (b : Births) : Births :=
  { b with birth_count := b.birth_count - 1 }

/-- Source: `void Clear() { birth_count_ = 0; }` -/
def Births.Clear (b : Births) : Births :=
  { b with birth_count := 0 }

/-- The `DeathData::Data` helper: a duration statistic holding the sum of
all durations seen (`duration_`) and the largest single duration seen
(`max_`). -/
structure DeathData.Data where
  duration : Int
  max : Int
deriving DecidableEq

/-- Source: `Data() : duration_(0), max_(0) {}` -/
def DeathData.Data.init : DeathData.Data := ⟨0, 0⟩

/-- Modelled from the spec: the body of `DeathData::Data::AddDuration` is
not in the header; the spec says "add the two durations into the
respective duration stats (sum += d; max = max(max, d))". -/
def DeathData.Data.AddDuration (d : DeathData.Data) (dur : Int) : DeathData.Data :=
  { duration := d.duration + dur,
    max := if d.max < dur then dur else d.max }

/-- Modelled from the spec: the body of `DeathData::Data::Clear` ("Resets
all members to zero") is not in the header. -/
def DeathData.Data.Clear (_ : DeathData.Data) : DeathData.Data := DeathData.Data.init

/-- Modelled from the spec: averages are "sum/count ... when count > 0";
the body of `AverageMsDuration` is not in the header. -/
def DeathData.Data.AverageMsDuration (d : DeathData.Data) (count : Int) : Int :=
  if 0 < count then d.duration / count else 0

/-- The `DeathData` record: a death count plus run-time and queue-time
duration statistics. -/
structure DeathData where
  count : Int
  run_time : DeathData.Data
  queue_time : DeathData.Data
deriving DecidableEq

/-- Source: `DeathData() : count_(0) {}` with default-initialised stats. -/
def DeathData.init : DeathData := ⟨0, DeathData.Data.init, DeathData.Data.init⟩

/-- Source: `explicit DeathData(int count) : count_(count) {}` with
default-initialised (all-zero) duration stats. -/
def DeathData.ofCount (count : Int) : DeathData :=
  ⟨count, DeathData.Data.init, DeathData.Data.init⟩

/-- Modelled from the spec: the body of `DeathData::RecordDeath` is not in
the header; the spec says "increment its count by one; add the two
durations into the respective duration stats". -/
def DeathData.RecordDeath (d : DeathData) (queue_duration run_duration : Int) : DeathData :=
  { count := d.count + 1,
    run_time := d.run_time.AddDuration run_duration,
    queue_time := d.queue_time.AddDuration queue_duration }

/-- Source accessors on `DeathData` (inline in the header). -/
def DeathData.run_duration (d : DeathData) : Int := d.run_time.duration

def DeathData.run_duration_max (d : DeathData) : Int := d.run_time.max

def DeathData.queue_duration (d : DeathData) : Int := d.queue_time.duration

def DeathData.queue_duration_max (d : DeathData) : Int := d.queue_time.max

def DeathData.AverageMsRunDuration (d : DeathData) : Int :=
  d.run_time.AverageMsDuration d.count

def DeathData.AverageMsQueueDuration (d : DeathData) : Int :=
  d.queue_time.AverageMsDuration d.count

/-- Modelled from the spec: the body of `DeathData::Clear` ("Reset all
tallies to zero") is not in the header. -/
def DeathData.Clear (_ : DeathData) : DeathData := DeathData.init

/-- Association-list lookup, modelling `std::map::find`. -/
def lookupA {α β : Type} [DecidableEq α] : List (α × β) → α → Option β
  | [], _ => none
  | (k, v) :: rest, a => if k = a then some v else lookupA rest a

/-- Association-list update-or-insert, modelling `map[key] = value`. -/
def setA {α β : Type} [DecidableEq α] : List (α × β) → α → β → List (α × β)
  | [], a, b => [(a, b)]
  | (k, v) :: rest, a, b => if k = a then (k, b) :: rest else (k, v) :: setA rest a b

/-- Integer-valued lookup with the `std::map<...,int>` default of zero. -/
def lookupVal {α : Type} [DecidableEq α] (l : List (α × Int)) (a : α) : Int :=
  (lookupA l a).getD 0

/-- Add `d` to the entry for `a` (creating it when absent), modelling
`map[key] += d` on an int-valued map. -/
def bumpA {α : Type} [DecidableEq α] (l : List (α × Int)) (a : α) (d : Int) :
    List (α × Int) :=
  match lookupA l a with
  | some v => setA l a (v + d)
  | none => l ++ [(a, d)]

/-- A per-thread table: the thread id, the birth map (location to birth
count; the rest of a `Births` record is the immutable key) and the death
map (birth pointer to `DeathData`). -/
structure ThreadData where
  tid : ThreadId
  birth_map : List (Location × Int)
  death_map : List (BirthRef × DeathData)
deriving DecidableEq

/-- Tracking status of the system (source enum `ThreadData::Status`). -/
inductive Status where
  | UNINITIALIZED
  | ACTIVE
  | DEACTIVATED
deriving DecidableEq

/-- Modelled from the spec: the body of `ThreadData::TallyABirth` is not
in the header; the spec says "find the birth record for that location
(creating it if absent) and increment its count by one. Return the
(stable) birth record pointer". -/
def ThreadData.TallyABirth (td : ThreadData) (location : Location) :
    ThreadData × BirthRef :=
  match lookupA td.birth_map location with
  | some c => ({ td with birth_map := setA td.birth_map location (c + 1) },
               ⟨td.tid, location⟩)
  | none => ({ td with birth_map := td.birth_map ++ [(location, 1)] },
             ⟨td.tid, location⟩)

/-- Modelled from the spec: the body of `ThreadData::TallyABirthIfActive`
is not in the header; the spec says "If the system is not ACTIVE, return
null and do nothing". -/
def TallyABirthIfActive (st : Status) (td : ThreadData) (location : Location) :
    ThreadData × Option BirthRef :=
  if st = Status.ACTIVE then
    ((td.TallyABirth location).1, some (td.TallyABirth location).2)
  else (td, none)

/-- Modelled from the spec: the body of `ThreadData::TallyADeath` is not
in the header; the spec says "find or create the death record keyed by
the birth pointer" and then record the death on it. -/
def ThreadData.TallyADeath (td : ThreadData) (birth : BirthRef)
    (queue_duration duration : Int) : ThreadData :=
  let old := (lookupA td.death_map birth).getD DeathData.init
  { td with death_map := setA td.death_map birth (old.RecordDeath queue_duration duration) }

/-- Clamp a computed duration: "Negative computed durations are clamped
to zero" (spec, error handling). -/
def durClamp (d : Int) : Int := max d 0

/-- The timing bundle carried by a completed task (`base::TrackingInfo`):
the birth pointer, the posting time and the optional delayed start time. -/
structure TrackingInfo where
  birth_tally : Option BirthRef
  time_posted : Int
  delayed_start : Option Int

/-- Modelled from the spec: the body of
`ThreadData::TallyRunOnNamedThreadIfTracking` is not in the header.  Spec:
no-op unless ACTIVE and the birth pointer is non-null; queue duration =
start_of_run minus (delayed_start or time_posted); run duration =
end_of_run minus start_of_run; negative durations clamp to zero. -/
def TallyRunOnNamedThreadIfTracking (st : Status) (td : ThreadData)
    (completed_task : TrackingInfo) (start_of_run end_of_run : Int) : ThreadData :=
  if st = Status.ACTIVE then
    match completed_task.birth_tally with
    | none => td
    | some birth =>
        td.TallyADeath birth
          (durClamp (start_of_run -
            (completed_task.delayed_start.getD completed_task.time_posted)))
          (durClamp (end_of_run - start_of_run))
  else td

/-- Modelled from the spec: the body of
`ThreadData::TallyRunOnWorkerThreadIfTracking` is not in the header.
Spec: same formulas with queue duration = start_of_run minus
time_posted. -/
def TallyRunOnWorkerThreadIfTracking (st : Status) (td : ThreadData)
    (birth : Option BirthRef) (time_posted start_of_run end_of_run : Int) : ThreadData :=
  if st = Status.ACTIVE then
    match birth with
    | none => td
    | some b =>
        td.TallyADeath b
          (durClamp (start_of_run - time_posted))
          (durClamp (end_of_run - start_of_run))
  else td

/-- Modelled from the spec: the body of
`ThreadData::TallyRunInAScopedRegionIfTracking` is not in the header.
Spec: scoped regions have queue duration = 0. -/
def TallyRunInAScopedRegionIfTracking (st : Status) (td : ThreadData)
    (birth : Option BirthRef) (start_of_run end_of_run : Int) : ThreadData :=
  if st = Status.ACTIVE then
    match birth with
    | none => td
    | some b =>
        td.TallyADeath b 0 (durClamp (end_of_run - start_of_run))
  else td

/-- A frozen snapshot record: a pointer to the birth record, the death
thread's table (or none for a birth-only record), and a BY-VALUE copy of
the death record (source member `DeathData death_data_;`). -/
structure Snapshot where
  birth : BirthRef
  death_thread : Option ThreadId
  death_data : DeathData
deriving DecidableEq

/-- The full life-cycle constructor
`Snapshot(birth_on_thread, death_thread, death_data)`: it stores the
death record by value in the `death_data_` member. -/
def Snapshot.ofDeath (birth : BirthRef) (death_thread : ThreadId)
    (death_data : DeathData) : Snapshot :=
  ⟨birth, some death_thread, death_data⟩

/-- The birth-only constructor `Snapshot(birth_on_thread, count)`: no
death thread, and the death data is `DeathData(count)` (source: the
`explicit DeathData(int count)` constructor). -/
def Snapshot.ofBirthOnly (birth : BirthRef) (count : Int) : Snapshot :=
  ⟨birth, none, DeathData.ofCount count⟩

/-- Source accessors on `Snapshot` (inline in the header): every stat is
read from the stored `death_data_` copy. -/
def Snapshot.count (s : Snapshot) : Int := s.death_data.count

def Snapshot.run_duration (s : Snapshot) : Int := s.death_data.run_duration

def Snapshot.run_duration_max (s : Snapshot) : Int := s.death_data.run_duration_max

def Snapshot.queue_duration (s : Snapshot) : Int := s.death_data.queue_duration

def Snapshot.queue_duration_max (s : Snapshot) : Int := s.death_data.queue_duration_max

def Snapshot.AverageMsRunDuration (s : Snapshot) : Int :=
  s.death_data.AverageMsRunDuration

def Snapshot.AverageMsQueueDuration (s : Snapshot) : Int :=
  s.death_data.AverageMsQueueDuration

/-- The collector: the array of snapshots plus the
`std::map<const BirthOnThread*, int> global_birth_count_` of births with
no matching death seen yet. -/
structure DataCollector where
  collection : List Snapshot
  global_birth_count : List (BirthRef × Int)

def DataCollector.empty : DataCollector := ⟨[], []⟩

/-- Modelled from the spec: the body of `DataCollector::Append` is not in
the header.  Spec: clone the two maps; for each death record emit one
snapshot record with the current thread as death thread; add every
birth's count into the living-births counter and subtract the count of
every death record encountered. -/
def DataCollector.Append (col : DataCollector) (td : ThreadData) : DataCollector :=
  { collection := col.collection ++
      td.death_map.map (fun p => Snapshot.ofDeath p.1 td.tid p.2),
    global_birth_count :=
      td.birth_map.foldl (fun g p => bumpA g ⟨td.tid, p.1⟩ p.2)
        (td.death_map.foldl (fun g p => bumpA g p.1 (-p.2.count))
          col.global_birth_count) }

/-- Modelled from the spec: the body of
`DataCollector::AddListOfLivingObjects` is not in the header.  Spec:
"iterate the living-births map and, for every entry with positive
residual, emit a birth-only snapshot record". -/
def DataCollector.AddListOfLivingObjects (col : DataCollector) : DataCollector :=
  let living := (col.global_birth_count.filter (fun p => decide (0 < p.2))).map
    (fun p => Snapshot.ofBirthOnly p.1 p.2)
  { col with collection := col.collection ++ living }

/-- Birth count contributed for the birth pointer `b` by one thread's
birth map (the owning thread's records keyed as (tid, location)). -/
def birthSumOf (tid : ThreadId) (m : List (Location × Int)) (b : BirthRef) : Int :=
  match m with
  | [] => 0
  | (l, c) :: rest => (if BirthRef.mk tid l = b then c else 0) + birthSumOf tid rest b

/-- Total death count keyed by the birth pointer `b` in one thread's
death map. -/
def deathSumOf (m : List (BirthRef × DeathData)) (b : BirthRef) : Int :=
  match m with
  | [] => 0
  | (k, dd) :: rest => (if k = b then dd.count else 0) + deathSumOf rest b

/-- The residual of a birth pointer over a list of thread tables: its
birth count minus the sum of death counts keyed by it across all threads'
death maps. -/
def residual (threads : List ThreadData) (b : BirthRef) : Int :=
  match threads with
  | [] => 0
  | td :: rest =>
      birthSumOf td.tid td.birth_map b - deathSumOf td.death_map b + residual rest b

/-- Modelled from the spec: the body of `ThreadData::Reset` is not in the
header.  Spec: zero every birth count and every death record's
count/sums/maxes; the maps are not emptied. -/
def ThreadData.Reset (td : ThreadData) : ThreadData :=
  { td with
    birth_map := td.birth_map.map (fun p => (p.1, 0)),
    death_map := td.death_map.map (fun p => (p.1, p.2.Clear)) }

/-- Modelled from the spec: the body of `ThreadData::ResetAllThreadData`
is not in the header.  Spec: apply the per-thread reset to every thread
table in the global registry. -/
def ResetAllThreadData (threads : List ThreadData) : List ThreadData :=
  threads.map ThreadData.Reset

/-- The public operations that change the tracking status. -/
inductive TrackOp where
  /-- The idempotent initialisation; its argument is the compile-time
  default (ACTIVE when tracking is compiled in). -/
  | initTracking (default : Bool)
  /-- The composite `InitializeAndSetTrackingStatus(bool)`: initialise if
  needed, then set the status to ACTIVE or DEACTIVATED. -/
  | setStatus (active : Bool)

/-- Modelled from the spec: the tracking status transition function.
Spec: initialise transitions UNINITIALIZED to ACTIVE or DEACTIVATED and
is idempotent; set-status toggles between ACTIVE and DEACTIVATED. -/
def applyTrackOp (s : Status) : TrackOp → Status
  | TrackOp.initTracking d =>
      match s with
      | Status.UNINITIALIZED => if d then Status.ACTIVE else Status.DEACTIVATED
      | s' => s'
  | TrackOp.setStatus b => if b then Status.ACTIVE else Status.DEACTIVATED

/-- Run a sequence of status operations. -/
def runTrackOps (s : Status) (ops : List TrackOp) : Status :=
  ops.foldl applyTrackOp s

/-- Iterate `TallyABirthIfActive` (keeping only the state) `n` times. -/
def iterTallyBirth (st : Status) (td : ThreadData) (location : Location) :
    Nat → ThreadData
  | 0 => td
  | n + 1 => iterTallyBirth st (TallyABirthIfActive st td location).1 location n

/-- Death records reachable by single-threaded sequences of operations:
the default constructor, recording a death with clamped (non-negative)
durations, and the reset `Clear`. -/
inductive ReachableDeath : DeathData → Prop where
  | init : ReachableDeath DeathData.init
  | record (d : DeathData) (q r : Int) (hq : 0 ≤ q) (hr : 0 ≤ r)
      (h : ReachableDeath d) : ReachableDeath (d.RecordDeath q r)
  | clear (d : DeathData) (h : ReachableDeath d) : ReachableDeath d.Clear

theorem lookupA_setA_self {α β : Type} [DecidableEq α] (l : List (α × β)) (a : α) (b : β) :
    lookupA (setA l a b) a = some b := by
  induction l with
  | nil => simp [setA, lookupA]
  | cons hd tl ih =>
    obtain ⟨k, v⟩ := hd
    by_cases hk : k = a
    · simp [setA, lookupA, hk]
    · simp [setA, lookupA, hk, ih]

theorem lookupA_setA_ne {α β : Type} [DecidableEq α] (l : List (α × β)) (a x : α) (b : β)
    (h : x ≠ a) : lookupA (setA l a b) x = lookupA l x := by
  induction l with
  | nil =>
    have hax : ¬ a = x := fun he => h he.symm
    simp [setA, lookupA, hax]
  | cons hd tl ih =>
    obtain ⟨k, v⟩ := hd
    by_cases hk : k = a
    · subst hk
      have hkx : ¬ k = x := fun he => h he.symm
      simp [setA, lookupA, hkx]
    · simp [setA, lookupA, hk, ih]

theorem lookupA_append_of_none {α β : Type} [DecidableEq α] (l₁ l₂ : List (α × β)) (a : α)
    (h : lookupA l₁ a = none) : lookupA (l₁ ++ l₂) a = lookupA l₂ a := by
  induction l₁ with
  | nil => simp
  | cons hd tl ih =>
    obtain ⟨k, v⟩ := hd
    rw [List.cons_append]
    by_cases hk : k = a
    · rw [lookupA, if_pos hk] at h
      exact absurd h (by simp)
    · rw [lookupA, if_neg hk] at h
      rw [lookupA, if_neg hk]
      exact ih h

/-- C10: `ForgetBirth` decrements the birth count by exactly one, so a
`RecordBirth` followed by a `ForgetBirth` leaves the record unchanged,
and an unguarded `ForgetBirth` can drive the signed count below zero. -/
theorem births_forget_inverts_record (b : Births) :
    (Births.ForgetBirth b).birth_count = b.birth_count - 1 ∧
    Births.ForgetBirth (Births.RecordBirth b) = b ∧
    (b.birth_count ≤ 0 → (Births.ForgetBirth b).birth_count < 0) := by
  refine ⟨rfl, ?_, ?_⟩
  · cases b with
    | mk loc t c => simp [Births.RecordBirth, Births.ForgetBirth]
  · intro h
    simp only [Births.ForgetBirth]
    omega

theorem births_forget_inverts_record_witness :
    (Births.mk ⟨0, 0, 0⟩ 0 0).birth_count ≤ 0 ∧
    (Births.ForgetBirth (Births.mk ⟨0, 0, 0⟩ 0 0)).birth_count < 0 :=
  ⟨by decide, (births_forget_inverts_record (Births.mk ⟨0, 0, 0⟩ 0 0)).2.2 (by decide)⟩

/-- C9: a `Snapshot` stores a by-value copy of the death record, so every
stat accessor returns the value the record had at construction time, and
a later death recorded into the live table does not change what the
snapshot reports (the live record's count moves on, the snapshot's does
not). -/
theorem snapshot_is_frozen_copy (td : ThreadData) (b : BirthRef) (t : ThreadId)
    (q r : Int) :
    (Snapshot.ofDeath b t ((lookupA td.death_map b).getD DeathData.init)).count
      = ((lookupA td.death_map b).getD DeathData.init).count ∧
    (Snapshot.ofDeath b t ((lookupA td.death_map b).getD DeathData.init)).run_duration
      = ((lookupA td.death_map b).getD DeathData.init).run_time.duration ∧
    (Snapshot.ofDeath b t ((lookupA td.death_map b).getD DeathData.init)).run_duration_max
      = ((lookupA td.death_map b).getD DeathData.init).run_time.max ∧
    (Snapshot.ofDeath b t ((lookupA td.death_map b).getD DeathData.init)).queue_duration
      = ((lookupA td.death_map b).getD DeathData.init).queue_time.duration ∧
    (Snapshot.ofDeath b t ((lookupA td.death_map b).getD DeathData.init)).queue_duration_max
      = ((lookupA td.death_map b).getD DeathData.init).queue_time.max ∧
    (Snapshot.ofDeath b t ((lookupA td.death_map b).getD DeathData.init)).AverageMsRunDuration
      = ((lookupA td.death_map b).getD DeathData.init).AverageMsRunDuration ∧
    (Snapshot.ofDeath b t ((lookupA td.death_map b).getD DeathData.init)).AverageMsQueueDuration
      = ((lookupA td.death_map b).getD DeathData.init).AverageMsQueueDuration ∧
    (Snapshot.ofDeath b t ((lookupA td.death_map b).getD DeathData.init)).count
      ≠ ((lookupA (td.TallyADeath b q r).death_map b).getD DeathData.init).count := by
  refine ⟨rfl, rfl, rfl, rfl, rfl, rfl, rfl, ?_⟩
  simp only [ThreadData.TallyADeath, lookupA_setA_self, Option.getD_some,
    Snapshot.ofDeath, Snapshot.count, DeathData.RecordDeath]
  omega

/-- C3: when the tracking status is not ACTIVE, `TallyABirthIfActive`
returns null, and every tally entry point leaves the thread table
untouched. -/
theorem tally_noop_when_not_active (st : Status) (td : ThreadData) (location : Location)
    (task : TrackingInfo) (birth : Option BirthRef) (tp s e : Int)
    (h : st ≠ Status.ACTIVE) :
    TallyABirthIfActive st td location = (td, none) ∧
    TallyRunOnNamedThreadIfTracking st td task s e = td ∧
    TallyRunOnWorkerThreadIfTracking st td birth tp s e = td ∧
    TallyRunInAScopedRegionIfTracking st td birth s e = td := by
  refine ⟨?_, ?_, ?_, ?_⟩ <;>
    simp [TallyABirthIfActive, TallyRunOnNamedThreadIfTracking,
      TallyRunOnWorkerThreadIfTracking, TallyRunInAScopedRegionIfTracking, h]

theorem tally_noop_when_not_active_witness :
    Status.DEACTIVATED ≠ Status.ACTIVE ∧
    TallyABirthIfActive Status.DEACTIVATED (ThreadData.mk 0 [] []) ⟨0, 0, 0⟩
      = (ThreadData.mk 0 [] [], none) :=
  ⟨by decide,
    (tally_noop_when_not_active Status.DEACTIVATED (ThreadData.mk 0 [] []) ⟨0, 0, 0⟩
      ⟨none, 0, none⟩ none 0 0 0 (by decide)).1⟩

/-- C4: the three run-reporting entry points reduce to `TallyADeath` with
queue duration `start_of_run - (delayed_start or time_posted)` for the
named-thread flavour, `start_of_run - time_posted` for the worker-thread
flavour, and `0` for the scoped-region flavour; all run durations are
`end_of_run - start_of_run`, and negative durations clamp to zero. -/
theorem tally_run_duration_formulas (td : ThreadData) (b : BirthRef)
    (tp : Int) (ds : Option Int) (s e : Int) :
    TallyRunOnNamedThreadIfTracking Status.ACTIVE td ⟨some b, tp, ds⟩ s e
      = td.TallyADeath b (max (s - ds.getD tp) 0) (max (e - s) 0) ∧
    TallyRunOnWorkerThreadIfTracking Status.ACTIVE td (some b) tp s e
      = td.TallyADeath b (max (s - tp) 0) (max (e - s) 0) ∧
    TallyRunInAScopedRegionIfTracking Status.ACTIVE td (some b) s e
      = td.TallyADeath b 0 (max (e - s) 0) :=
  ⟨rfl, rfl, rfl⟩

/-- C2: recording a death finds or creates the death record keyed by the
birth pointer, increments its count by one, adds the queue and run
durations to the respective sums, and updates the maxes to
`max(old, new)`. -/
theorem tally_a_death_updates_record (td : ThreadData) (b : BirthRef) (q r : Int)
    (hq : 0 ≤ q) (hr : 0 ≤ r) :
    lookupA (td.TallyADeath b q r).death_map b
      = some (((lookupA td.death_map b).getD DeathData.init).RecordDeath q r) ∧
    (((lookupA td.death_map b).getD DeathData.init).RecordDeath q r).count
      = ((lookupA td.death_map b).getD DeathData.init).count + 1 ∧
    (((lookupA td.death_map b).getD DeathData.init).RecordDeath q r).queue_time.duration
      = ((lookupA td.death_map b).getD DeathData.init).queue_time.duration + q ∧
    (((lookupA td.death_map b).getD DeathData.init).RecordDeath q r).queue_time.max
      = max ((lookupA td.death_map b).getD DeathData.init).queue_time.max q ∧
    (((lookupA td.death_map b).getD DeathData.init).RecordDeath q r).run_time.duration
      = ((lookupA td.death_map b).getD DeathData.init).run_time.duration + r ∧
    (((lookupA td.death_map b).getD DeathData.init).RecordDeath q r).run_time.max
      = max ((lookupA td.death_map b).getD DeathData.init).run_time.max r := by
  refine ⟨?_, rfl, rfl, ?_, rfl, ?_⟩
  · simp [ThreadData.TallyADeath, lookupA_setA_self]
  · simp only [DeathData.RecordDeath, DeathData.Data.AddDuration]
    rw [max_def]
    split_ifs <;> omega
  · simp only [DeathData.RecordDeath, DeathData.Data.AddDuration]
    rw [max_def]
    split_ifs <;> omega

theorem tally_a_death_updates_record_witness :
    (0 : Int) ≤ 2 ∧ (0 : Int) ≤ 3 ∧
    lookupA ((ThreadData.mk 0 [] []).TallyADeath ⟨0, ⟨0, 0, 0⟩⟩ 2 3).death_map ⟨0, ⟨0, 0, 0⟩⟩
      = some (DeathData.init.RecordDeath 2 3) :=
  ⟨by decide, by decide,
    (tally_a_death_updates_record (ThreadData.mk 0 [] []) ⟨0, ⟨0, 0, 0⟩⟩ 2 3
      (by decide) (by decide)).1⟩

theorem death_stat_invariant_aux (d : DeathData) (h : ReachableDeath d) :
    0 ≤ d.run_time.duration ∧ d.run_time.max ≤ d.run_time.duration ∧
    0 ≤ d.queue_time.duration ∧ d.queue_time.max ≤ d.queue_time.duration := by
  induction h with
  | init => simp [DeathData.init, DeathData.Data.init]
  | record d q r hq hr h ih =>
    obtain ⟨h1, h2, h3, h4⟩ := ih
    simp only [DeathData.RecordDeath, DeathData.Data.AddDuration]
    refine ⟨by omega, ?_, by omega, ?_⟩ <;> (split_ifs <;> omega)
  | clear d h ih => simp [DeathData.Clear, DeathData.init, DeathData.Data.init]

/-- C6: for every death record reachable by a single-threaded sequence of
operations (record a death with clamped non-negative durations, reset),
the max of each duration statistic is bounded by its sum. -/
theorem death_record_max_le_sum (d : DeathData) (h : ReachableDeath d) :
    d.run_time.max ≤ d.run_time.duration ∧
    d.queue_time.max ≤ d.queue_time.duration :=
  ⟨(death_stat_invariant_aux d h).2.1, (death_stat_invariant_aux d h).2.2.2⟩

theorem death_record_max_le_sum_witness :
    (DeathData.init.RecordDeath 3 5).run_time.max
        ≤ (DeathData.init.RecordDeath 3 5).run_time.duration ∧
    (DeathData.init.RecordDeath 3 5).queue_time.max
        ≤ (DeathData.init.RecordDeath 3 5).queue_time.duration :=
  death_record_max_le_sum (DeathData.init.RecordDeath 3 5)
    (ReachableDeath.record DeathData.init 3 5 (by decide) (by decide) ReachableDeath.init)

/-- C7: the global reset zeroes every birth count and every death
record's count, sums and maxes, while leaving the thread ids and the key
sets of every birth and death map unchanged (no record is removed). -/
theorem reset_zeroes_and_preserves_structure (threads : List ThreadData) :
    ((ResetAllThreadData threads).map (fun td => td.tid))
      = threads.map (fun td => td.tid) ∧
    ((ResetAllThreadData threads).map (fun td => td.birth_map.map Prod.fst))
      = threads.map (fun td => td.birth_map.map Prod.fst) ∧
    ((ResetAllThreadData threads).map (fun td => td.death_map.map Prod.fst))
      = threads.map (fun td => td.death_map.map Prod.fst) ∧
    ((ResetAllThreadData threads).map (fun td => td.birth_map.map Prod.snd))
      = threads.map (fun td => td.birth_map.map (fun _ => (0 : Int))) ∧
    ((ResetAllThreadData threads).map (fun td => td.death_map.map Prod.snd))
      = threads.map (fun td => td.death_map.map (fun _ => DeathData.init)) := by
  refine ⟨?_, ?_, ?_, ?_, ?_⟩ <;>
    · simp only [ResetAllThreadData, List.map_map]
      refine List.map_congr_left ?_
      intro td _
      simp only [Function.comp, ThreadData.Reset, List.map_map] <;>
        exact List.map_congr_left (fun p _ => rfl)

theorem applyTrackOp_ne_uninit (s : Status) (op : TrackOp) :
    applyTrackOp s op ≠ Status.UNINITIALIZED := by
  cases op with
  | initTracking d => cases d <;> cases s <;> decide
  | setStatus b => cases b <;> cases s <;> decide

theorem runTrackOps_ne_uninit (ops : List TrackOp) (s : Status)
    (h : s ≠ Status.UNINITIALIZED) : runTrackOps s ops ≠ Status.UNINITIALIZED := by
  induction ops generalizing s with
  | nil => simpa [runTrackOps] using h
  | cons op rest ih =>
    simp only [runTrackOps, List.foldl] at ih ⊢
    exact ih (applyTrackOp s op) (applyTrackOp_ne_uninit s op)

/-- C8: initialisation moves UNINITIALIZED to ACTIVE or DEACTIVATED, no
subsequent sequence of status operations ever returns to UNINITIALIZED,
and every set-status call lands on ACTIVE or DEACTIVATED. -/
theorem status_never_returns_uninitialized (d : Bool) (ops : List TrackOp) :
    (applyTrackOp Status.UNINITIALIZED (TrackOp.initTracking d) = Status.ACTIVE ∨
     applyTrackOp Status.UNINITIALIZED (TrackOp.initTracking d) = Status.DEACTIVATED) ∧
    runTrackOps (applyTrackOp Status.UNINITIALIZED (TrackOp.initTracking d)) ops
      ≠ Status.UNINITIALIZED ∧
    (∀ (s : Status) (b : Bool),
      applyTrackOp s (TrackOp.setStatus b) = Status.ACTIVE ∨
      applyTrackOp s (TrackOp.setStatus b) = Status.DEACTIVATED) := by
  refine ⟨?_, ?_, ?_⟩
  · cases d <;> simp [applyTrackOp]
  · exact runTrackOps_ne_uninit ops _
      (applyTrackOp_ne_uninit Status.UNINITIALIZED (TrackOp.initTracking d))
  · intro s b
    cases b <;> simp [applyTrackOp]

theorem tallyABirthIfActive_fst_tid (td : ThreadData) (l : Location) (st : Status) :
    ((TallyABirthIfActive st td l).1).tid = td.tid := by
  rcases hx : lookupA td.birth_map l with _ | c <;>
    by_cases hst : st = Status.ACTIVE <;>
      simp [TallyABirthIfActive, ThreadData.TallyABirth, hx, hst]

theorem tallyABirthIfActive_snd_active (td : ThreadData) (l : Location) :
    (TallyABirthIfActive Status.ACTIVE td l).2 = some ⟨td.tid, l⟩ := by
  rcases hx : lookupA td.birth_map l with _ | c <;>
    simp [TallyABirthIfActive, ThreadData.TallyABirth, hx]

theorem iterTallyBirth_tid (l : Location) (n : Nat) (td : ThreadData) :
    (iterTallyBirth Status.ACTIVE td l n).tid = td.tid := by
  induction n generalizing td with
  | zero => rfl
  | succ n ih =>
    rw [iterTallyBirth, ih, tallyABirthIfActive_fst_tid]

theorem lookupA_tallyABirth (td : ThreadData) (l : Location) :
    lookupA ((td.TallyABirth l).1).birth_map l
      = some ((lookupA td.birth_map l).getD 0 + 1) := by
  rcases hx : lookupA td.birth_map l with _ | c
  · simp only [ThreadData.TallyABirth, hx, Option.getD_none]
    rw [lookupA_append_of_none _ _ _ hx]
    simp [lookupA]
  · simp [ThreadData.TallyABirth, hx, lookupA_setA_self]

theorem lookupA_iterTallyBirth (l : Location) (n : Nat) (td : ThreadData) (c : Int)
    (h : lookupA td.birth_map l = some c) :
    lookupA (iterTallyBirth Status.ACTIVE td l n).birth_map l = some (c + n) := by
  induction n generalizing td c with
  | zero => simpa using h
  | succ n ih =>
    rw [iterTallyBirth]
    have h1 : lookupA ((TallyABirthIfActive Status.ACTIVE td l).1).birth_map l
        = some (c + 1) := by
      simp [TallyABirthIfActive, lookupA_tallyABirth, h]
    rw [ih _ _ h1]
    congr 1
    push_cast
    ring

/-- C1: starting with no record for the location, after exactly N tallies
with the system ACTIVE the birth record exists with count exactly N, and
every one of the calls returns the same (stable) birth record
reference. -/
theorem birth_tally_count_is_n (td : ThreadData) (l : Location) (n : Nat)
    (h0 : lookupA td.birth_map l = none) (hn : 0 < n) :
    lookupA (iterTallyBirth Status.ACTIVE td l n).birth_map l = some (n : Int) ∧
    ∀ k : Nat,
      (TallyABirthIfActive Status.ACTIVE (iterTallyBirth Status.ACTIVE td l k) l).2
        = some ⟨td.tid, l⟩ := by
  constructor
  · obtain ⟨m, rfl⟩ : ∃ m, n = m + 1 := ⟨n - 1, by omega⟩
    rw [iterTallyBirth]
    have h1 : lookupA ((TallyABirthIfActive Status.ACTIVE td l).1).birth_map l
        = some 1 := by
      simp [TallyABirthIfActive, lookupA_tallyABirth, h0]
    rw [lookupA_iterTallyBirth l m _ 1 h1]
    congr 1
    push_cast
    ring
  · intro k
    rw [tallyABirthIfActive_snd_active, iterTallyBirth_tid]

theorem birth_tally_count_is_n_witness :
    lookupA (ThreadData.mk 5 [] []).birth_map ⟨1, 2, 3⟩ = none ∧ 0 < 3 ∧
    lookupA (iterTallyBirth Status.ACTIVE (ThreadData.mk 5 [] []) ⟨1, 2, 3⟩ 3).birth_map
        ⟨1, 2, 3⟩ = some 3 :=
  ⟨rfl, by decide,
    (birth_tally_count_is_n (ThreadData.mk 5 [] []) ⟨1, 2, 3⟩ 3 rfl (by decide)).1⟩

theorem lookupA_append_single_ne {α β : Type} [DecidableEq α] (l : List (α × β))
    (a x : α) (b : β) (h : x ≠ a) : lookupA (l ++ [(a, b)]) x = lookupA l x := by
  induction l with
  | nil =>
    have hax : ¬ a = x := fun he => h he.symm
    simp [lookupA, hax]
  | cons hd tl ih =>
    obtain ⟨k, v⟩ := hd
    by_cases hk : k = x <;> simp [lookupA, hk, ih]

theorem lookupVal_bumpA {α : Type} [DecidableEq α] (l : List (α × Int)) (a x : α)
    (d : Int) : lookupVal (bumpA l a d) x = lookupVal l x + (if a = x then d else 0) := by
  unfold bumpA
  rcases h : lookupA l a with _ | v
  · by_cases hax : a = x
    · subst hax
      rw [if_pos rfl]
      unfold lookupVal
      rw [lookupA_append_of_none _ _ _ h, h]
      simp [lookupA]
    · rw [if_neg hax]
      unfold lookupVal
      rw [lookupA_append_single_ne _ _ _ _ (fun he => hax he.symm)]
      ring
  · by_cases hax : a = x
    · subst hax
      rw [if_pos rfl]
      unfold lookupVal
      rw [lookupA_setA_self, h]
      simp
    · rw [if_neg hax]
      unfold lookupVal
      rw [lookupA_setA_ne _ _ _ _ (fun he => hax he.symm)]
      ring

theorem lookupA_eq_none_iff {α β : Type} [DecidableEq α] (l : List (α × β)) (a : α) :
    lookupA l a = none ↔ a ∉ l.map Prod.fst := by
  induction l with
  | nil => simp [lookupA]
  | cons hd tl ih =>
    obtain ⟨k, v⟩ := hd
    by_cases hk : k = a
    · subst hk
      simp [lookupA]
    · have hak : a ≠ k := fun he => hk he.symm
      rw [lookupA, if_neg hk, ih]
      simp [hak]

theorem map_fst_setA_of_mem {α β : Type} [DecidableEq α] (l : List (α × β)) (a : α)
    (b : β) (h : lookupA l a ≠ none) : (setA l a b).map Prod.fst = l.map Prod.fst := by
  induction l with
  | nil => simp [lookupA] at h
  | cons hd tl ih =>
    obtain ⟨k, v⟩ := hd
    by_cases hk : k = a
    · simp [setA, hk]
    · simp only [setA, hk, if_false, List.map_cons]
      rw [ih (by simpa [lookupA, hk] using h)]

theorem nodup_keys_bumpA {α : Type} [DecidableEq α] (l : List (α × Int)) (a : α)
    (d : Int) (h : (l.map Prod.fst).Nodup) : ((bumpA l a d).map Prod.fst).Nodup := by
  unfold bumpA
  rcases hx : lookupA l a with _ | v
  · rw [List.map_append]
    have ha : a ∉ l.map Prod.fst := (lookupA_eq_none_iff l a).mp hx
    simp [List.nodup_append, h, ha]
  · rw [map_fst_setA_of_mem l a _ (by simp [hx])]
    exact h

theorem lookupVal_birth_fold (tid : ThreadId) (m : List (Location × Int))
    (g : List (BirthRef × Int)) (b : BirthRef) :
    lookupVal (m.foldl (fun g p => bumpA g ⟨tid, p.1⟩ p.2) g) b
      = lookupVal g b + birthSumOf tid m b := by
  induction m generalizing g with
  | nil => simp [birthSumOf]
  | cons p rest ih =>
    simp only [List.foldl]
    rw [ih, lookupVal_bumpA, birthSumOf]
    ring

theorem lookupVal_death_fold (m : List (BirthRef × DeathData))
    (g : List (BirthRef × Int)) (b : BirthRef) :
    lookupVal (m.foldl (fun g p => bumpA g p.1 (-p.2.count)) g) b
      = lookupVal g b - deathSumOf m b := by
  induction m generalizing g with
  | nil => simp [deathSumOf]
  | cons p rest ih =>
    simp only [List.foldl]
    rw [ih, lookupVal_bumpA, deathSumOf]
    split_ifs <;> ring

theorem lookupVal_append_global (col : DataCollector) (td : ThreadData) (b : BirthRef) :
    lookupVal (col.Append td).global_birth_count b
      = lookupVal col.global_birth_count b
        + (birthSumOf td.tid td.birth_map b - deathSumOf td.death_map b) := by
  simp only [DataCollector.Append]
  rw [lookupVal_birth_fold, lookupVal_death_fold]
  ring

theorem lookupVal_fold_append (threads : List ThreadData) (col : DataCollector)
    (b : BirthRef) :
    lookupVal ((threads.foldl DataCollector.Append col).global_birth_count) b
      = lookupVal col.global_birth_count b + residual threads b := by
  induction threads generalizing col with
  | nil => simp [residual]
  | cons td rest ih =>
    simp only [List.foldl, residual]
    rw [ih, lookupVal_append_global]
    ring

theorem nodup_keys_foldl_bump {γ : Type} {α : Type} [DecidableEq α] (m : List γ)
    (key : γ → α) (amt : γ → Int) (g : List (α × Int))
    (h : (g.map Prod.fst).Nodup) :
    (((m.foldl (fun g p => bumpA g (key p) (amt p)) g)).map Prod.fst).Nodup := by
  induction m generalizing g with
  | nil => exact h
  | cons p rest ih => exact ih _ (nodup_keys_bumpA _ _ _ h)

theorem nodup_keys_fold_append (threads : List ThreadData) (col : DataCollector)
    (h : (col.global_birth_count.map Prod.fst).Nodup) :
    (((threads.foldl DataCollector.Append col).global_birth_count).map Prod.fst).Nodup := by
  induction threads generalizing col with
  | nil => exact h
  | cons td rest ih =>
    refine ih _ ?_
    simp only [DataCollector.Append]
    exact nodup_keys_foldl_bump _ _ _ _ (nodup_keys_foldl_bump _ _ _ _ h)

theorem filter_of_map {α β : Type} (f : α → β) (p : β → Bool) (l : List α) :
    (l.map f).filter p = (l.filter (fun a => p (f a))).map f := by
  induction l with
  | nil => rfl
  | cons a tl ih => by_cases h : p (f a) <;> simp [List.filter, h, ih]

theorem filter_map_ofDeath (m : List (BirthRef × DeathData)) (t : ThreadId)
    (p : Snapshot → Bool) (hp : ∀ br dd, p (Snapshot.ofDeath br t dd) = false) :
    (m.map (fun q => Snapshot.ofDeath q.1 t q.2)).filter p = [] := by
  induction m with
  | nil => rfl
  | cons q rest ih => simp [List.filter, hp, ih]

theorem fold_append_collection_filter (threads : List ThreadData) (col : DataCollector)
    (p : Snapshot → Bool) (hp : ∀ br t dd, p (Snapshot.ofDeath br t dd) = false) :
    ((threads.foldl DataCollector.Append col).collection).filter p
      = col.collection.filter p := by
  induction threads generalizing col with
  | nil => rfl
  | cons td rest ih =>
    simp only [List.foldl]
    rw [ih]
    simp only [DataCollector.Append]
    rw [List.filter_append, filter_map_ofDeath _ _ _ (fun br dd => hp br td.tid dd)]
    simp

theorem filter_key_not_mem {α β : Type} [DecidableEq α] (l : List (α × β)) (b : α)
    (q : α × β → Bool) (h : b ∉ l.map Prod.fst) :
    l.filter (fun p => decide (p.1 = b) && q p) = [] := by
  induction l with
  | nil => rfl
  | cons p tl ih =>
    simp only [List.map_cons, List.mem_cons, not_or] at h
    have hb : ¬ p.1 = b := fun he => h.1 he.symm
    simp [List.filter, hb, ih h.2]

theorem filter_key_nodup {α β : Type} [DecidableEq α] (l : List (α × β)) (b : α)
    (q : α × β → Bool) (h : (l.map Prod.fst).Nodup) :
    l.filter (fun p => decide (p.1 = b) && q p)
      = (match lookupA l b with
         | some v => if q (b, v) then [(b, v)] else []
         | none => []) := by
  induction l with
  | nil => rfl
  | cons p tl ih =>
    obtain ⟨k, v⟩ := p
    simp only [List.map_cons, List.nodup_cons] at h
    by_cases hk : k = b
    · subst hk
      rw [lookupA, if_pos rfl]
      by_cases hq : q (k, v)
      · simp only [List.filter, hq, Bool.and_true, decide_True]
        rw [filter_key_not_mem tl k q h.1]
        simp
      · simp only [List.filter]
        rw [if_neg hq]
        have hfalse : (decide True && q (k, v)) = false := by simp [hq]
        rw [hfalse]
        exact filter_key_not_mem tl k q h.1
    · rw [lookupA, if_neg hk]
      have hkb : (decide ((k, v).1 = b) && q (k, v)) = false := by simp [hk]
      simp only [List.filter, hkb]
      exact ih h.2

/-- C5: after appending every thread's contribution, the living-objects
pass emits exactly one birth-only snapshot record for every birth pointer
with strictly positive residual (birth count minus all matching death
counts across all threads), carrying the residual as its count with zero
duration stats, and emits nothing for residuals that are zero or
negative. -/
theorem living_objects_residual (threads : List ThreadData) (b : BirthRef) :
    ((DataCollector.AddListOfLivingObjects
        (threads.foldl DataCollector.Append DataCollector.empty)).collection.filter
      (fun s => decide (s.death_thread = none) && decide (s.birth = b)))
      = (if 0 < residual threads b
         then [Snapshot.ofBirthOnly b (residual threads b)] else []) ∧
    (Snapshot.ofBirthOnly b (residual threads b)).death_data
      = DeathData.ofCount (residual threads b) ∧
    (DeathData.ofCount (residual threads b)).count = residual threads b ∧
    (DeathData.ofCount (residual threads b)).run_time = DeathData.Data.init ∧
    (DeathData.ofCount (residual threads b)).queue_time = DeathData.Data.init := by
  refine ⟨?_, rfl, rfl, rfl, rfl⟩
  have hval : lookupVal ((threads.foldl DataCollector.Append
      DataCollector.empty).global_birth_count) b = residual threads b := by
    rw [lookupVal_fold_append]
    simp [DataCollector.empty, lookupVal, lookupA]
  have hnodup : (((threads.foldl DataCollector.Append
      DataCollector.empty).global_birth_count).map Prod.fst).Nodup :=
    nodup_keys_fold_append threads DataCollector.empty (by simp [DataCollector.empty])
  simp only [DataCollector.AddListOfLivingObjects]
  rw [List.filter_append]
  rw [fold_append_collection_filter threads DataCollector.empty _
    (by intro br t dd; simp [Snapshot.ofDeath])]
  have hemp : (DataCollector.empty.collection.filter
      (fun s => decide (s.death_thread = none) && decide (s.birth = b))) = [] := rfl
  rw [hemp, List.nil_append]
  rw [filter_of_map]
  have hpred : (fun a : BirthRef × Int =>
      (decide ((Snapshot.ofBirthOnly a.1 a.2).death_thread = none) &&
       decide ((Snapshot.ofBirthOnly a.1 a.2).birth = b)))
      = fun a : BirthRef × Int => decide (a.1 = b) := by
    funext a
    simp [Snapshot.ofBirthOnly]
  rw [hpred]
  simp only [List.filter_filter]
  rw [filter_key_nodup _ b (fun p => decide (0 < p.2)) hnodup]
  rcases hx : lookupA ((threads.foldl DataCollector.Append
      DataCollector.empty).global_birth_count) b with _ | v
  · have : residual threads b = 0 := by
      rw [← hval]
      simp [lookupVal, hx]
    rw [this]
    simp
  · have hv : v = residual threads b := by
      rw [← hval]
      simp [lookupVal, hx]
    subst hv
    by_cases hpos : 0 < residual threads b
    · simp [hpos]
    · simp [hpos]

end tracked_objects
